import Mathlib

/-!
# Verification of the Bitbucket search-and-clone pipeline

Shallow embedding of the repository implementing an authenticated
Bitbucket code-search scraper and repository cloner.  The embedding
covers:

* `src/lib/config.ts` : time-based one-time-code derivation
  (`generateTOTP`), including base32 decoding, HMAC-SHA1 and the
  otpauth URI handling;
* the scraper module (`scrape`, `scrapeForEachResult`,
  `searchForCodeInBitbucket`) : search triggering, pagination and
  result deduplication via a JavaScript `Set`;
* the CLI entry point (`main`, `cloneRepository`) : result capping,
  short-name derivation, clone loop with branch fallback, and
  process exit behaviour.

External collaborators (browser automation, the credential vault, the
`git` subprocess, the filesystem) are modelled as explicit inputs:
each external step outcome is a parameter of the corresponding function.
-/

namespace BitbucketClone

/-! ## Character-level models of the JavaScript string primitives used -/

/-- Model of JavaScript `String.prototype.split` with a single-character
separator, at the level of character lists.  `split` always returns a
non-empty array; splitting the empty string yields one empty group. -/
def splitChar (sep : Char) : List Char → List (List Char)
  | [] => [[]]
  | c :: cs =>
    match splitChar sep cs with
    | [] => [[]]
    | g :: gs => if c = sep then [] :: g :: gs else (c :: g) :: gs

/-- Model of `Array.prototype.pop` on the non-empty result of a split:
the last group (the final path segment for a split on `/`). -/
def jsPop (gs : List (List Char)) : List Char := gs.getLastD []

/-- Model of indexing `[0]` into the non-empty result of a split. -/
def jsHead (gs : List (List Char)) : List Char := gs.headD []

/-- Does `l` start with the pattern `pat`?  (Model of the prefix test
underlying `String.prototype.includes`.) -/
def startsWithSub : List Char → List Char → Bool
  | _, [] => true
  | [], _ :: _ => false
  | c :: cs, p :: ps => c = p && startsWithSub cs ps

/-- Model of JavaScript `String.prototype.includes`: does `pat` occur
contiguously anywhere in `l`? -/
def containsSub (pat : List Char) : List Char → Bool
  | [] => pat.isEmpty
  | c :: cs => startsWithSub (c :: cs) pat || containsSub pat cs

/-- String wrapper for `containsSub`. -/
def strContains (s pat : String) : Bool := containsSub pat.data s.data

/-- Model of JavaScript `String.prototype.trim`: remove leading and
trailing whitespace characters. -/
def jsTrim (l : List Char) : List Char :=
  ((l.dropWhile Char.isWhitespace).reverse.dropWhile Char.isWhitespace).reverse

/-! ## `main` (CLI entry point): short-name derivation

Source: `const repoName = result.split('/').pop()?.split('.')[0]`.
`split` never returns an empty array, so `pop` is always defined and
the optional chaining never produces `undefined`. -/

/-- Character-level model of the short-name derivation in `main`:
last `/`-separated segment, then the part before the first `.`. -/
def repoNameChars (addr : List Char) : List Char :=
  jsHead (splitChar '.' (jsPop (splitChar '/' addr)))

/-- The derived short name used for the destination-existence check and
as the clone target directory. -/
def repoName (addr : String) : String := String.mk (repoNameChars addr.data)

/-- Written from the claim text (NOT from the source): the final path
segment of the transport address with a single trailing extension-like
suffix stripped — i.e. everything from the last dot on is removed when
the segment contains a dot. -/
def claimShortNameChars (addr : List Char) : List Char :=
  let seg := (addr.reverse.takeWhile (fun c => c != '/')).reverse
  if seg.contains '.' then
    (((seg.reverse).dropWhile (fun c => c != '.')).drop 1).reverse
  else seg

/-- String wrapper for `claimShortNameChars`. -/
def claimShortName (addr : String) : String :=
  String.mk (claimShortNameChars addr.data)

/-- Written from the amended claim text: the final path segment of the
transport address truncated at its first dot (everything from the first
dot on is stripped). -/
def amendedShortNameChars (addr : List Char) : List Char :=
  ((addr.reverse.takeWhile (fun c => c != '/')).reverse).takeWhile
    (fun c => c != '.')

/-- String wrapper for `amendedShortNameChars`. -/
def amendedShortName (addr : String) : String :=
  String.mk (amendedShortNameChars addr.data)

/-! ## `main`: result capping

Source: `argv.maxResults ? results.slice(0, argv.maxResults) : results`.
JavaScript truthiness makes both `undefined` (option absent) and `0`
take the un-capped branch. -/

/-- The list of repositories to clone after applying the optional
`--max-results` cap, as computed by `main`. -/
def repositoriesToClone (maxResults : Option Nat) (results : List String) :
    List String :=
  match maxResults with
  | none => results
  | some k => if k = 0 then results else results.take k

/-! ## `cloneRepository` and the clone loop

The `git clone` subprocess is an external collaborator; the outcome of
each possible invocation is passed in as an `Except` value carrying the
error message on failure. -/

/-- Per-entry retrieval outcome, as recorded by the clone loop. -/
inductive CloneOutcome where
  | succeeded (branchUsed : Option String)
  | failed (message : String)
  deriving DecidableEq

/-- One `git clone` invocation performed by `cloneRepository`. -/
inductive FetchAttempt where
  | branchRestricted (branch : String)
  | unrestricted
  deriving DecidableEq

/-- Model of `cloneRepository`: given the requested branch and the
outcomes of the (at most two) possible `git clone` invocations, returns
the recorded outcome together with the ordered list of fetch attempts
actually performed.  Mirrors the callback structure of the source:
with a branch, the branch-restricted clone runs first and on failure a
fallback unrestricted clone runs, whose error message is the one
carried by the rejection. -/
def cloneRepository (branch : Option String)
    (branchFetch defaultFetch : Except String Unit) :
    CloneOutcome × List FetchAttempt :=
  match branch with
  | some b =>
    match branchFetch with
    | .ok _ => (.succeeded (some b), [.branchRestricted b])
    | .error _ =>
      match defaultFetch with
      | .ok _ => (.succeeded none, [.branchRestricted b, .unrestricted])
      | .error msg => (.failed msg, [.branchRestricted b, .unrestricted])
  | none =>
    match defaultFetch with
    | .ok _ => (.succeeded none, [.unrestricted])
    | .error msg => (.failed msg, [.unrestricted])

instance : DecidableEq (Except String Unit) := fun a b =>
  match a, b with
  | .ok _, .ok _ => isTrue rfl
  | .error e1, .error e2 =>
    if h : e1 = e2 then isTrue (by rw [h])
    else isFalse (fun hc => by cases hc; exact h rfl)
  | .ok _, .error _ => isFalse (fun hc => by cases hc)
  | .error _, .ok _ => isFalse (fun hc => by cases hc)

/-- Environment of one plan entry in the clone loop: whether its
destination directory exists at the moment it is processed
(`existsSync` is sampled per entry), and the outcomes the external
`git` process would report for each possible invocation. -/
structure RunEntry where
  destExists : Bool
  branchFetch : Except String Unit
  defaultFetch : Except String Unit
  deriving DecidableEq

/-- Model of the non-dry-run retrieval loop in `main`: threads the
success and failure counters and records, per entry, the list of fetch
attempts performed ( `[]` for an entry skipped because its destination
already exists).  Counters: an existing destination increments neither
counter; otherwise `cloneRepository` resolves (success) or rejects
(failure). -/
def cloneLoop (branch : Option String) : List RunEntry →
    Nat × Nat × List (List FetchAttempt)
  | [] => (0, 0, [])
  | e :: rest =>
    let tail := cloneLoop branch rest
    if e.destExists then (tail.1, tail.2.1, [] :: tail.2.2)
    else
      match cloneRepository branch e.branchFetch e.defaultFetch with
      | (.succeeded _, atts) => (tail.1 + 1, tail.2.1, atts :: tail.2.2)
      | (.failed _, atts) => (tail.1, tail.2.1 + 1, atts :: tail.2.2)

/-! ## Scraper: search triggering (`searchForCodeInBitbucket`) -/

/-- A link-role element of the search-suggestion menu: its text content
(`textContent` may be `null`) and whether it is visible. -/
structure UiLink where
  text : Option String
  visible : Bool
  deriving DecidableEq

/-- The action taken by `searchForCodeInBitbucket`. -/
inductive SearchAction where
  | clickedCodeSearchLink
  | clickedFirstOption
  | noAction
  deriving DecidableEq

/-- The scan over all link-role elements for one whose text contains
the phrase `Search for code in` — visibility is NOT part of this scan
in the source; it is checked only afterwards. -/
def findCodeSearchLink (links : List UiLink) : Option UiLink :=
  links.find? (fun l =>
    match l.text with
    | some t => strContains t "Search for code in"
    | none => false)

/-- Model of `searchForCodeInBitbucket` after the search term is
filled: if no link with matching text exists, log and return (no
fallback).  If the matching link is visible, click it.  Otherwise fall
back to the first element with the `option` role, clicking it only when
it is visible; in all remaining cases nothing is clicked and no error
is raised.  `firstOptionVisible` models
`page.locator(str).first().isVisible()`, which is `false` both when the
element is absent and when it is hidden. -/
def searchForCodeInBitbucket (links : List UiLink)
    (firstOptionVisible : Bool) : SearchAction :=
  match findCodeSearchLink links with
  | none => .noAction
  | some l =>
    if l.visible then .clickedCodeSearchLink
    else if firstOptionVisible then .clickedFirstOption
    else .noAction

/-! ## Scraper: pagination (`scrapeForEachResult`) -/

/-- One rendered result page: the `href` attribute of the first link of
each `header` element ( `none` models a `null` attribute), together
with the state of the `Next` control (visibility, and the value of its
`disabled` attribute — `none` models `getAttribute` returning `null`). -/
structure ResultPage where
  headerLinks : List (Option String)
  nextVisible : Bool
  nextDisabledAttr : Option String
  deriving DecidableEq

/-- The identifiers appended on one page: a `null` href is skipped, a
falsy (empty) href is skipped, and kept hrefs are trimmed.  (Truthiness
is tested on the raw attribute, before trimming, as in the source.) -/
def pageHits (p : ResultPage) : List String :=
  p.headerLinks.filterMap (fun h? =>
    match h? with
    | none => none
    | some h => if h = "" then none else some (String.mk (jsTrim h.data)))

/-- The pagination loop over the supplied finite sequence of pages:
each iteration performs one header-group extraction, then clicks `Next`
exactly when it is visible and its `disabled` attribute is absent.
Returns the collected identifiers (with duplicates) and the number of
pages visited.  `none` models the run leaving the supplied finite
sequence (the `Next` control still enabled on its last page), whose
continuation the page sequence does not determine. -/
def collectLoop : List ResultPage → Option (List String × Nat)
  | [] => none
  | p :: rest =>
    if p.nextVisible && p.nextDisabledAttr == none then
      match collectLoop rest with
      | none => none
      | some (hs, n) => some (pageHits p ++ hs, n + 1)
    else some (pageHits p, 1)

/-- Model of `scrapeForEachResult`: if the explicit no-results marker is
visible the function returns the empty list immediately, otherwise it
runs the pagination loop. -/
def scrapeForEachResult (noResultsVisible : Bool)
    (pages : List ResultPage) : Option (List String × Nat) :=
  if noResultsVisible then some ([], 0) else collectLoop pages

/-- Iteration order of a JavaScript `Set` built from a list
(`new Set(searchResults)`): each element is kept at its first
occurrence and all later duplicates are dropped. -/
def jsSetInsertionOrder : List String → List String
  | [] => []
  | x :: xs => x :: jsSetInsertionOrder (xs.filter (fun y => y != x))
termination_by l => l.length
decreasing_by
  simp only [List.length_cons]
  exact Nat.lt_succ_of_le (List.length_filter_le _ _)

/-- The deduplicated identifier list produced by `scrape` from the raw
page-collected identifiers (`const searchResultSet = new
Set(searchResults)` iterated in insertion order). -/
def collectedIdentifiers (noResultsVisible : Bool)
    (pages : List ResultPage) : Option (List String) :=
  (scrapeForEachResult noResultsVisible pages).map
    (fun r => jsSetInsertionOrder r.1)

/-! ## `scrape` error propagation and process exit code

`scrape` resolves credentials (`getBitbucketAuth`) and launches the
browser BEFORE its `try` block; every step inside the `try`
(authentication, navigation, search, pagination, per-result clone-URL
resolution) is caught, logged, and turned into an empty result list.
`main().catch` maps any error that reaches the top level to
`process.exit(1)`. -/

/-- The outcomes of the external steps of one run of `scrape`:
credential resolution, browser launch, and the body of the `try` block
(which on success yields the resolved clone URLs). -/
structure ScrapeEnv where
  credentials : Except String Unit
  browserLaunch : Except String Unit
  tryBlock : Except String (List String)

/-- Model of `scrape`: failures of credential resolution or browser
launch propagate (they happen before the `try`); failures inside the
`try` block are caught and produce an empty list. -/
def scrape (env : ScrapeEnv) : Except String (List String) :=
  match env.credentials with
  | .error e => .error e
  | .ok _ =>
    match env.browserLaunch with
    | .error e => .error e
    | .ok _ =>
      match env.tryBlock with
      | .error _ => .ok []
      | .ok results => .ok results

/-- Model of `main` at the granularity relevant to exit behaviour: the
only awaited call whose rejection is not locally caught is `scrape`
(per-entry clone rejections are caught inside the loop), so `main`
rejects exactly when `scrape` rejects. -/
def mainRun (env : ScrapeEnv) : Except String Unit :=
  match scrape env with
  | .error e => .error e
  | .ok _ => .ok ()

/-- Model of `main().catch(error => ... process.exit(1))`: the process
exit code is 1 when an uncaught error reaches the top level and 0 when
`main` resolves (Node default). -/
def processExitCode (env : ScrapeEnv) : Nat :=
  match mainRun env with
  | .error _ => 1
  | .ok _ => 0

/-! ## `lib/config.ts`: time-based one-time-code derivation

`generateTOTP` accepts either a raw base32 secret or an `otpauth://`
provisioning URI, guards against 1Password vault paths, cleans the
secret, decodes it from base32 and computes the standard 6-digit
30-second SHA-1 TOTP.  The SHA-1 / HMAC / base32 / HOTP routines below
model the `otpauth` library the source calls (RFC 3174, RFC 2104,
RFC 4648, RFC 4226/6238), with machine words as `Nat` reduced
mod `2 ^ 32`. -/

/-- `2 ^ 32`, the word size of the SHA-1 state. -/
def M32 : Nat := 4294967296

/-- Truncation to a 32-bit word. -/
def w32 (n : Nat) : Nat := n % M32

/-- 32-bit left rotation of a word `n < 2 ^ 32` by `s` places. -/
def rotl (s n : Nat) : Nat := (w32 (n <<< s)) ||| (n >>> (32 - s))

/-- Big-endian 8-byte encoding of a counter (RFC 4226 moving factor,
SHA-1 length field). -/
def bytesBE8 (n : Nat) : List Nat :=
  [(n >>> 56) % 256, (n >>> 48) % 256, (n >>> 40) % 256, (n >>> 32) % 256,
   (n >>> 24) % 256, (n >>> 16) % 256, (n >>> 8) % 256, n % 256]

/-- Big-endian byte decomposition of one 32-bit word. -/
def wordBytes (n : Nat) : List Nat :=
  [(n >>> 24) % 256, (n >>> 16) % 256, (n >>> 8) % 256, n % 256]

/-- SHA-1 message padding: `0x80`, zeros to 56 mod 64, then the
64-bit big-endian bit length. -/
def sha1Pad (msg : List Nat) : List Nat :=
  let len := msg.length
  let padZeros := (119 - len % 64) % 64
  msg ++ 128 :: List.replicate padZeros 0 ++ bytesBE8 (len * 8)

/-- Split a byte list into 64-byte blocks. -/
def chunks64 : List Nat → List (List Nat)
  | [] => []
  | c :: cs => (c :: cs).take 64 :: chunks64 ((c :: cs).drop 64)
termination_by l => l.length
decreasing_by
  simp only [List.drop_succ_cons, List.length_drop, List.length_cons]
  omega

/-- Pack bytes into big-endian 32-bit words. -/
def wordsOf : List Nat → List Nat
  | a :: b :: c :: d :: rest =>
    (((a * 256 + b) * 256 + c) * 256 + d) :: wordsOf rest
  | _ => []

/-- SHA-1 message schedule: extend 16 words to 80. -/
def sha1Extend (w : List Nat) : List Nat :=
  (List.range 64).foldl (fun w _ =>
    let n := w.length
    w ++ [rotl 1 ((((w.getD (n - 3) 0) ^^^ (w.getD (n - 8) 0)) ^^^
      (w.getD (n - 14) 0)) ^^^ (w.getD (n - 16) 0))]) w

/-- SHA-1 round function. -/
def sha1F (i b c d : Nat) : Nat :=
  if i < 20 then (b &&& c) ||| ((b ^^^ 4294967295) &&& d)
  else if i < 40 then (b ^^^ c) ^^^ d
  else if i < 60 then ((b &&& c) ||| (b &&& d)) ||| (c &&& d)
  else (b ^^^ c) ^^^ d

/-- SHA-1 round constants. -/
def sha1K (i : Nat) : Nat :=
  if i < 20 then 1518500249
  else if i < 40 then 1859775393
  else if i < 60 then 2400959708
  else 3395469782

/-- SHA-1 compression of one 64-byte block into the running state. -/
def sha1Compress (h : Nat × Nat × Nat × Nat × Nat) (block : List Nat) :
    Nat × Nat × Nat × Nat × Nat :=
  let ws := sha1Extend (wordsOf block)
  let (h0, h1, h2, h3, h4) := h
  let step := fun (st : Nat × Nat × Nat × Nat × Nat) (p : Nat × Nat) =>
    let (a, b, c, d, e) := st
    let t := w32 (rotl 5 a + sha1F p.1 b c d + e + sha1K p.1 + p.2)
    (t, a, rotl 30 b, c, d)
  let (a, b, c, d, e) := ws.enum.foldl step (h0, h1, h2, h3, h4)
  (w32 (h0 + a), w32 (h1 + b), w32 (h2 + c), w32 (h3 + d), w32 (h4 + e))

/-- SHA-1 of a byte list, as a 20-byte digest. -/
def sha1 (msg : List Nat) : List Nat :=
  let start : Nat × Nat × Nat × Nat × Nat :=
    (1732584193, 4023233417, 2562383102, 271733878, 3285377520)
  let (a, b, c, d, e) := (chunks64 (sha1Pad msg)).foldl sha1Compress start
  wordBytes a ++ wordBytes b ++ wordBytes c ++ wordBytes d ++ wordBytes e

/-- HMAC-SHA1 (RFC 2104). -/
def hmacSha1 (key msg : List Nat) : List Nat :=
  let k0 := if key.length > 64 then sha1 key else key
  let kpad := k0 ++ List.replicate (64 - k0.length) 0
  let ipad := kpad.map (fun b => b ^^^ 54)
  let opad := kpad.map (fun b => b ^^^ 92)
  sha1 (opad ++ sha1 (ipad ++ msg))

/-- Model of `String.prototype.padStart(n, c)`: pad on the left to
length `n` (a string already at least that long is returned as is). -/
def padStart (s : String) (n : Nat) (c : Char) : String :=
  String.mk (List.replicate (n - s.length) c) ++ s

/-- HOTP (RFC 4226) with 6 digits: HMAC-SHA1 digest, dynamic
truncation, reduction mod `10 ^ 6` and left zero-padding. -/
def hotp6 (key : List Nat) (counter : Nat) : String :=
  let digest := hmacSha1 key (bytesBE8 counter)
  let offset := (digest.getD 19 0) &&& 15
  let code := ((((digest.getD offset 0 &&& 127) <<< 24) |||
    ((digest.getD (offset + 1) 0) <<< 16)) |||
    (((digest.getD (offset + 2) 0) <<< 8) |||
    (digest.getD (offset + 3) 0))) % 1000000
  padStart (toString code) 6 '0'

/-- TOTP counter for a timestamp in milliseconds with the 30-second
step used by the source (`Math.floor(timestamp / 1000 / period)`). -/
def totpCounter (timestamp : Nat) : Nat := timestamp / 1000 / 30

/-- The 6-digit TOTP code for a decoded key and a millisecond
timestamp. -/
def totpGenerate (key : List Nat) (timestamp : Nat) : String :=
  hotp6 key (totpCounter timestamp)

/-- The RFC 4648 base32 alphabet. -/
def base32Alphabet : List Char := "ABCDEFGHIJKLMNOPQRSTUVWXYZ234567".data

/-- Index of a character in the base32 alphabet (`none` models the
`Invalid character found` error thrown by the decoder). -/
def base32CharIdx (c : Char) : Option Nat :=
  base32Alphabet.findIdx? (fun a => a = c)

/-- Bit-accumulating base32 decoding loop: 5 bits per character, one
output byte per 8 accumulated bits, trailing bits discarded. -/
def b32Go : Nat → Nat → List Char → Option (List Nat)
  | _, _, [] => some []
  | bits, value, c :: cs =>
    match base32CharIdx c with
    | none => none
    | some idx =>
      let value := (value <<< 5) ||| idx
      let bits := bits + 5
      if bits ≥ 8 then
        match b32Go (bits - 8) value cs with
        | none => none
        | some rest => some (((value >>> (bits - 8)) &&& 255) :: rest)
      else b32Go bits value cs

/-- Strip trailing `=` padding, as the decoder in the `otpauth`
library does before decoding. -/
def stripPadding (l : List Char) : List Char :=
  (l.reverse.dropWhile (fun c => c == '=')).reverse

/-- Base32 decoding of a secret string: strip padding, uppercase,
decode; `none` on any character outside the alphabet. -/
def base32Decode (s : String) : Option (List Nat) :=
  b32Go 0 0 ((stripPadding s.data).map Char.toUpper)

/-- Model of `new URL(u).searchParams.get(key)` for the `secret`
parameter of an `otpauth://` URI: the value of the first `secret`
query parameter after the first `?`, or `none` when absent.  (The
secrets involved are plain base32 strings, so percent-decoding is the
identity on them.)  A bare `secret` or `secret=` parameter yields the
empty string, as `URLSearchParams.get` does. -/
def urlSecretParam (u : String) : Option String :=
  match splitChar '?' u.data with
  | [] => none
  | [_] => none
  | _ :: q :: qs =>
    (splitChar '&' (List.intercalate ['?'] (q :: qs))).findSome? (fun p =>
      if startsWithSub p "secret=".data then some (String.mk (p.drop 7))
      else if p = "secret".data then some ""
      else none)

/-- The first stage of `generateTOTP`: for an `otpauth://` input,
extract the `secret` query parameter (a missing or falsy-empty
parameter throws); any other input is taken as the raw secret. -/
def resolveSecretString (input : String) : Except String String :=
  if startsWithSub input.data "otpauth://".data then
    match urlSecretParam input with
    | none => .error "No secret parameter found in otpauth URL"
    | some p =>
      if p = "" then .error "No secret parameter found in otpauth URL"
      else .ok p
  else .ok input

/-- The cleaning step of `generateTOTP`: `trim()`, `toUpperCase()`,
then `replace` of every whitespace character with nothing. -/
def cleanSecretOf (s : String) : String :=
  String.mk (((jsTrim s.data).map Char.toUpper).filter (fun c => !c.isWhitespace))

/-- The body of the `try` block of `generateTOTP`: resolve the secret
string, reject 1Password vault paths (`op://`), clean the secret,
reject an empty cleaned secret, decode from base32 and derive the
6-digit code. -/
def generateTOTPCore (input : String) (timestamp : Nat) :
    Except String String :=
  match resolveSecretString input with
  | .error e => .error e
  | .ok s =>
    if strContains s "op://" then
      .error "Received 1Password path instead of secret value"
    else
      let cleanSecret := cleanSecretOf s
      if cleanSecret = "" then .error "Empty or invalid secret provided"
      else
        match base32Decode cleanSecret with
        | none => .error "Invalid character found"
        | some key => .ok (totpGenerate key timestamp)

/-- Model of `generateTOTP`: the `catch` wraps every failure of the
body into the single rethrown error
`Failed to generate TOTP code from secret`. -/
def generateTOTP (input : String) (timestamp : Nat) :
    Except String String :=
  match generateTOTPCore input timestamp with
  | .ok code => .ok code
  | .error _ => .error "Failed to generate TOTP code from secret"

/-- Did a call modelled as an `Except` succeed? -/
def exceptIsOk {ε α : Type} (e : Except ε α) : Bool :=
  match e with
  | .ok _ => true
  | .error _ => false

/-- Sanity check of the base32 decoder on the RFC 6238 test secret,
whose decoding is the ASCII byte string `12345678901234567890`. -/
theorem base32Decode_rfc6238_secret :
    base32Decode "GEZDGNBVGY3TQOJQGEZDGNBVGY3TQOJQ" =
      some [49, 50, 51, 52, 53, 54, 55, 56, 57, 48,
            49, 50, 51, 52, 53, 54, 55, 56, 57, 48] := by decide

/-! ## Claim C1: exit behaviour -/

/-- C1: for every run in which credential resolution, authentication,
or any step of the scraping pipeline raises an uncaught error (one
that escapes every handler and reaches the top level), the process
exits with a non-zero status; runs that complete normally exit zero,
and a zero-result search exits with the same code 0 as any other
normal run. -/
theorem c1_exit_code (env : ScrapeEnv) :
    (∀ e, mainRun env = .error e → processExitCode env ≠ 0) ∧
    ((∃ u, mainRun env = .ok u) → processExitCode env = 0) ∧
    (∀ results : List String, env.credentials = .ok () →
      env.browserLaunch = .ok () → env.tryBlock = .ok results →
      processExitCode env = 0) := by
  refine ⟨?_, ?_, ?_⟩
  · intro e h
    simp [processExitCode, h]
  · rintro ⟨u, h⟩
    simp [processExitCode, h]
  · intro results hc hb ht
    simp [processExitCode, mainRun, scrape, hc, hb, ht]

/-- Witness for C1: a run whose credential resolution fails before the
`try` block reaches the top level uncaught, and the exit code is
non-zero. -/
theorem c1_exit_code_witness :
    processExitCode ⟨.error "SecretResolutionError", .ok (), .ok []⟩ ≠ 0 :=
  (c1_exit_code ⟨.error "SecretResolutionError", .ok (), .ok []⟩).1
    "SecretResolutionError" rfl

/-! ## Claim C3: result capping -/

/-- C3 counterexample: with one discovered address and a configured
maximum of `K = 0 < 1 = M`, the plan contains 1 entry, not `K = 0`:
JavaScript truthiness makes a `--max-results` value of `0` take the
un-capped branch of `argv.maxResults ? results.slice(0, argv.maxResults)
: results`. -/
theorem c3_cap_counterexample :
    (0 : Nat) < (["https://bitbucket.org/a/b"] : List String).length ∧
    repositoriesToClone (some 0) ["https://bitbucket.org/a/b"] =
      ["https://bitbucket.org/a/b"] ∧
    (repositoriesToClone (some 0) ["https://bitbucket.org/a/b"]).length ≠ 0 :=
  ⟨by decide, rfl, by decide⟩

/-- C3 amended: for every discovered address list of length `M` and
every configured maximum `K` with `1 ≤ K < M`, the retrieval plan has
exactly `K` entries — the first `K` addresses in discovery order.
(The amendment excludes `K = 0`, which JavaScript truthiness treats as
"no cap".) -/
theorem c3_cap_amended (k : Nat) (results : List String)
    (h1 : 1 ≤ k) (hk : k < results.length) :
    (repositoriesToClone (some k) results).length = k ∧
    repositoriesToClone (some k) results = results.take k ∧
    ∀ i, i < k → (repositoriesToClone (some k) results).getD i "" =
      results.getD i "" := by
  have hk0 : ¬ k = 0 := by omega
  simp only [repositoriesToClone, if_neg hk0]
  refine ⟨?_, trivial, ?_⟩
  · rw [List.length_take]; omega
  · intro i hi
    simp only [List.getD_eq_getElem?_getD]
    rw [List.getElem?_take_of_lt hi]

/-- Witness for C3 amended at `M = 3`, `K = 2`. -/
theorem c3_cap_amended_witness :
    (repositoriesToClone (some 2) ["a", "b", "c"]).length = 2 :=
  (c3_cap_amended 2 ["a", "b", "c"] (by decide) (by decide)).1

/-! ## Claim C4: branch fallback -/

/-- C4: for every retrieval entry with a requested branch whose
branch-restricted fetch fails, the orchestrator performs exactly the
two fetches `[branch-restricted, unrestricted]` — one unrestricted
attempt, after the restricted one and before any outcome is recorded —
and when the unrestricted fetch also fails, the recorded outcome is
`failed` carrying the unrestricted error message. -/
theorem c4_branch_fallback (b : String)
    (branchFetch defaultFetch : Except String Unit) (bmsg : String)
    (hb : branchFetch = .error bmsg) :
    (cloneRepository (some b) branchFetch defaultFetch).2 =
      [.branchRestricted b, .unrestricted] ∧
    (∀ dmsg, defaultFetch = .error dmsg →
      (cloneRepository (some b) branchFetch defaultFetch).1 =
        .failed dmsg) := by
  subst hb
  constructor
  · cases defaultFetch <;> rfl
  · intro dmsg hd
    subst hd
    rfl

/-- Witness for C4: both fetches fail; the outcome carries the
the message of the unrestricted fetch, not the branch-restricted one. -/
theorem c4_branch_fallback_witness :
    (cloneRepository (some "develop") (.error "branch not found")
      (.error "could not read from remote")).1 =
      .failed "could not read from remote" :=
  (c4_branch_fallback "develop" (.error "branch not found")
    (.error "could not read from remote") "branch not found" rfl).2
    "could not read from remote" rfl

/-! ## Claim C8: search-suggestion fallback -/

/-- C8 counterexample: on a menu with no link whose text contains the
search-code phrase (here one link reading `Recent searches`) and a
visible first `option`-role element, the collector takes no action at
all — it does not activate the option element, contrary to the claim
that the option fallback fires whenever no visible matching link
exists.  Moreover, when neither a matching link nor a visible option
element exists, the pipeline simply proceeds to the result-page scan
on the un-navigated page, which can still collect header links: the
output is not guaranteed to be the empty list the claim promises. -/
theorem c8_fallback_counterexample :
    searchForCodeInBitbucket [⟨some "Recent searches", true⟩] true =
      .noAction ∧
    SearchAction.noAction ≠ SearchAction.clickedFirstOption ∧
    searchForCodeInBitbucket [] false = .noAction ∧
    scrapeForEachResult false [⟨[some "stale-hit"], false, none⟩] =
      some (["stale-hit"], 1) ∧
    (["stale-hit"] : List String) ≠ [] := by
  exact ⟨by rfl, by decide, by rfl, by rfl, by decide⟩

/-- C8 amended: the `option`-role fallback fires only when a link with
matching text EXISTS but is not visible — then the first element with
the `option` role is activated if visible; when no matching link
exists at all the collector logs and takes no action, and in every
case the search step returns an action value rather than raising an
error (the result list is then whatever the subsequent result-page
scan collects, not necessarily empty). -/
theorem c8_fallback_amended (links : List UiLink)
    (firstOptionVisible : Bool) :
    (findCodeSearchLink links = none →
      searchForCodeInBitbucket links firstOptionVisible = .noAction) ∧
    (∀ l, findCodeSearchLink links = some l → l.visible = true →
      searchForCodeInBitbucket links firstOptionVisible =
        .clickedCodeSearchLink) ∧
    (∀ l, findCodeSearchLink links = some l → l.visible = false →
      firstOptionVisible = true →
      searchForCodeInBitbucket links firstOptionVisible =
        .clickedFirstOption) ∧
    (∀ l, findCodeSearchLink links = some l → l.visible = false →
      firstOptionVisible = false →
      searchForCodeInBitbucket links firstOptionVisible = .noAction) := by
  refine ⟨?_, ?_, ?_, ?_⟩
  · intro h
    simp [searchForCodeInBitbucket, h]
  · intro l h hv
    simp [searchForCodeInBitbucket, h, hv]
  · intro l h hv ho
    subst ho
    simp [searchForCodeInBitbucket, h, hv]
  · intro l h hv ho
    subst ho
    simp [searchForCodeInBitbucket, h, hv]

/-- Witness for C8 amended: a matching but invisible link together
with a visible option element does trigger the option fallback. -/
theorem c8_fallback_amended_witness :
    searchForCodeInBitbucket [⟨some "Search for code in myteam", false⟩]
      true = .clickedFirstOption :=
  (c8_fallback_amended [⟨some "Search for code in myteam", false⟩]
    true).2.2.1 ⟨some "Search for code in myteam", false⟩ (by decide)
    rfl rfl

/-! ## Claim C10: success/failure accounting -/

/-- C10: in every non-dry-run retrieval loop, the final success count
plus the final failure count equals the number of plan entries whose
destination directory did not exist when processed; the loop performs
one per-entry attempt record, and an entry whose destination exists
performs no fetch attempt at all. -/
theorem c10_counter_invariant (branch : Option String)
    (entries : List RunEntry) :
    (cloneLoop branch entries).1 + (cloneLoop branch entries).2.1 =
      (entries.filter (fun e => !e.destExists)).length ∧
    (cloneLoop branch entries).2.2.length = entries.length ∧
    ∀ p ∈ entries.zip (cloneLoop branch entries).2.2,
      p.1.destExists = true → p.2 = [] := by
  induction entries with
  | nil => exact ⟨rfl, rfl, by intro p hp; cases hp⟩
  | cons e rest ih =>
    obtain ⟨ih1, ih2, ih3⟩ := ih
    by_cases hd : e.destExists
    · have hloop : cloneLoop branch (e :: rest) =
          ((cloneLoop branch rest).1, (cloneLoop branch rest).2.1,
            [] :: (cloneLoop branch rest).2.2) := by
        simp [cloneLoop, hd]
      rw [hloop]
      refine ⟨?_, ?_, ?_⟩
      · simpa [List.filter_cons, hd] using ih1
      · simpa using ih2
      · intro p hp
        rcases List.mem_cons.mp hp with hp | hp
        · subst hp
          intro _
          rfl
        · exact ih3 p hp
    · rcases hc : cloneRepository branch e.branchFetch e.defaultFetch
        with ⟨outcome, atts⟩
      cases outcome with
      | succeeded bu =>
        have hloop : cloneLoop branch (e :: rest) =
            ((cloneLoop branch rest).1 + 1, (cloneLoop branch rest).2.1,
              atts :: (cloneLoop branch rest).2.2) := by
          simp [cloneLoop, hd, hc]
        rw [hloop]
        refine ⟨?_, ?_, ?_⟩
        · simp only [List.filter_cons, hd]
          simp only [Bool.not_false, if_pos]
          simp only [List.length_cons]
          omega
        · simpa using ih2
        · intro p hp
          rcases List.mem_cons.mp hp with hp | hp
          · subst hp
            intro habs
            exact absurd habs hd
          · exact ih3 p hp
      | failed msg =>
        have hloop : cloneLoop branch (e :: rest) =
            ((cloneLoop branch rest).1, (cloneLoop branch rest).2.1 + 1,
              atts :: (cloneLoop branch rest).2.2) := by
          simp [cloneLoop, hd, hc]
        rw [hloop]
        refine ⟨?_, ?_, ?_⟩
        · simp only [List.filter_cons, hd]
          simp only [Bool.not_false, if_pos]
          simp only [List.length_cons]
          omega
        · simpa using ih2
        · intro p hp
          rcases List.mem_cons.mp hp with hp | hp
          · subst hp
            intro habs
            exact absurd habs hd
          · exact ih3 p hp

/-- Witness for C10 on a three-entry run (one skipped, one success,
one failure): the skipped entry records no fetch attempt. -/
theorem c10_counter_invariant_witness :
    ((⟨true, .ok (), .ok ()⟩ : RunEntry), ([] : List FetchAttempt)).2 =
      [] :=
  (c10_counter_invariant none
    [⟨true, .ok (), .ok ()⟩, ⟨false, .ok (), .ok ()⟩,
     ⟨false, .error "x", .error "y"⟩]).2.2
    (⟨true, .ok (), .ok ()⟩, []) (List.mem_cons_self _ _) (by decide)

/-! ## Claim C7: pagination termination -/

/-- C7 counterexample: the claim constrains only the `disabled`
attribute on the non-last pages, but the loop also requires the `Next`
control to be visible.  On this two-page sequence the first page has
`disabled` absent yet `Next` invisible and the last has `disabled`
present, satisfying the hypothesis of the claim, but the loop stops after 1
page, not 2. -/
theorem c7_pagination_counterexample :
    scrapeForEachResult false
      [⟨[some "x"], false, none⟩, ⟨[], true, some ""⟩] =
      some (["x"], 1) ∧
    ([(⟨[some "x"], false, none⟩ : ResultPage),
      ⟨[], true, some ""⟩].length = 2) ∧
    (1 : Nat) ≠ 2 := by
  exact ⟨by rfl, by rfl, by decide⟩

/-- C7 amended: for every finite non-empty page sequence on which the
`Next` control is visible with its `disabled` attribute absent on all
but the last page, and on the last page is invisible or carries the
`disabled` attribute, the loop terminates after visiting exactly the
number of pages in the sequence, performing exactly one header-group
extraction per page visited (the collected output is the in-order
concatenation of the per-page extractions).  (The amendment adds the
visibility requirement on the non-last pages.) -/
theorem c7_pagination_amended (pages : List ResultPage)
    (hne : pages ≠ [])
    (hmid : ∀ p ∈ pages.dropLast,
      p.nextVisible = true ∧ p.nextDisabledAttr = none)
    (hlast : ∀ p, pages.getLast? = some p →
      p.nextVisible = false ∨ p.nextDisabledAttr ≠ none) :
    scrapeForEachResult false pages =
      some ((pages.map pageHits).flatten, pages.length) := by
  induction pages with
  | nil => exact absurd rfl hne
  | cons p rest ih =>
    cases rest with
    | nil =>
      have hstop := hlast p (by simp)
      have hcond : (p.nextVisible && p.nextDisabledAttr == none) = false := by
        rcases hstop with h | h
        · simp [h]
        · cases hd : p.nextDisabledAttr with
          | none => exact absurd hd h
          | some v => simp [hd]
      simp [scrapeForEachResult, collectLoop, hcond]
    | cons q rest2 =>
      have hp := hmid p (by simp)
      have ih' := ih (by simp)
        (fun r hr => hmid r (by rw [List.dropLast_cons₂]; exact List.mem_cons_of_mem p hr))
        (fun r hr => hlast r (by rw [List.getLast?_cons_cons]; exact hr))
      have hloop : collectLoop (q :: rest2) =
          some (((q :: rest2).map pageHits).flatten, (q :: rest2).length) := by
        simpa [scrapeForEachResult] using ih'
      have hcond : (p.nextVisible && p.nextDisabledAttr == none) = true := by
        simp [hp.1, hp.2]
      simp only [scrapeForEachResult, Bool.false_eq_true, if_false]
      rw [collectLoop, hloop]
      simp [hcond]

/-- Witness for C7 amended on a concrete three-page sequence. -/
theorem c7_pagination_amended_witness :
    scrapeForEachResult false
      [⟨[some "a"], true, none⟩, ⟨[some "b"], true, none⟩,
       ⟨[some "c"], true, some ""⟩] = some (["a", "b", "c"], 3) := by
  have h := c7_pagination_amended
    [⟨[some "a"], true, none⟩, ⟨[some "b"], true, none⟩,
     ⟨[some "c"], true, some ""⟩]
    (List.cons_ne_nil _ _)
    (by decide)
    (by
      intro p hp
      simp only [List.getLast?_cons_cons, List.getLast?_singleton,
        Option.some.injEq] at hp
      subst hp
      decide)
  exact h.trans (by rfl)

/-! ## Claim C2: deduplication, first-seen order -/

/-- Unfolding lemma: one step of the `Set` insertion-order dedup. -/
theorem jsSetInsertionOrder_cons (x : String) (xs : List String) :
    jsSetInsertionOrder (x :: xs) =
      x :: jsSetInsertionOrder (xs.filter (fun y => y != x)) := by
  rw [jsSetInsertionOrder]

/-- Membership is preserved by the dedup. -/
theorem jsSetInsertionOrder_mem :
    ∀ (l : List String) (x : String),
      x ∈ jsSetInsertionOrder l ↔ x ∈ l := by
  intro l
  induction l using jsSetInsertionOrder.induct with
  | case1 => intro x; simp [jsSetInsertionOrder]
  | case2 a xs ih =>
    intro x
    rw [jsSetInsertionOrder_cons]
    by_cases hx : x = a
    · subst hx
      simp
    · simp only [List.mem_cons, hx, false_or, ih, List.mem_filter,
        bne_iff_ne, ne_eq, hx, not_false_eq_true, and_true]

/-- An identifier occurring in the input occurs exactly once in the
dedup output. -/
theorem jsSetInsertionOrder_count_eq_one :
    ∀ (l : List String) (x : String), x ∈ l →
      (jsSetInsertionOrder l).count x = 1 := by
  intro l
  induction l using jsSetInsertionOrder.induct with
  | case1 => intro x hx; cases hx
  | case2 a xs ih =>
    intro x hx
    rw [jsSetInsertionOrder_cons]
    by_cases hxa : x = a
    · subst hxa
      rw [List.count_cons_self]
      have hnot : x ∉ jsSetInsertionOrder (xs.filter (fun y => y != x)) := by
        rw [jsSetInsertionOrder_mem]
        simp
      rw [List.count_eq_zero.mpr hnot]
    · have hxs : x ∈ xs := by
        rcases List.mem_cons.mp hx with h | h
        · exact absurd h hxa
        · exact h
      have hxf : x ∈ xs.filter (fun y => y != a) := by
        rw [List.mem_filter]
        exact ⟨hxs, by simp [hxa]⟩
      rw [List.count_cons_of_ne hxa]
      exact ih x hxf

/-- The dedup output has no duplicate identifiers. -/
theorem jsSetInsertionOrder_nodup :
    ∀ l : List String, (jsSetInsertionOrder l).Nodup := by
  intro l
  induction l using jsSetInsertionOrder.induct with
  | case1 =>
    rw [jsSetInsertionOrder]
    exact List.nodup_nil
  | case2 a xs ih =>
    rw [jsSetInsertionOrder_cons]
    refine List.Nodup.cons ?_ ih
    rw [jsSetInsertionOrder_mem]
    simp

/-- `indexOf` written as one conditional step, specialised to
`String`. -/
theorem indexOf_cons_ite (b x : String) (l : List String) :
    (b :: l).indexOf x = if b = x then 0 else l.indexOf x + 1 := by
  by_cases h : b = x
  · subst h
    simp [List.indexOf_cons_self]
  · simp [List.indexOf_cons_ne _ (by exact h), h]

/-- Positions in a filtered list are ordered as in the base list:
filtering never swaps the relative order of two surviving elements. -/
theorem indexOf_lt_of_filter_indexOf_lt (p : String → Bool) :
    ∀ (l : List String) (a b : String), a ∈ l.filter p → b ∈ l.filter p →
      (l.filter p).indexOf a < (l.filter p).indexOf b →
      l.indexOf a < l.indexOf b := by
  intro l
  induction l with
  | nil => intro a b ha; cases ha
  | cons c cs ih =>
    intro a b ha hb hlt
    by_cases hc : p c
    · rw [List.filter_cons_of_pos hc] at ha hb hlt
      by_cases hca : c = a
      · subst hca
        have hcb : c ≠ b := by
          intro hcb
          subst hcb
          exact Nat.lt_irrefl _ hlt
        rw [indexOf_cons_ite, if_pos rfl]
        rw [indexOf_cons_ite, if_neg hcb]
        exact Nat.succ_pos _
      · by_cases hcb : c = b
        · subst hcb
          rw [indexOf_cons_ite, indexOf_cons_ite, if_neg hca,
            if_pos rfl] at hlt
          exact absurd hlt (Nat.not_lt_zero _)
        · rw [indexOf_cons_ite, if_neg hca, indexOf_cons_ite, if_neg hcb]
            at hlt
          have ha2 : a ∈ cs.filter p := by
            rcases List.mem_cons.mp ha with h | h
            · exact absurd h.symm hca
            · exact h
          have hb2 : b ∈ cs.filter p := by
            rcases List.mem_cons.mp hb with h | h
            · exact absurd h.symm hcb
            · exact h
          rw [indexOf_cons_ite, if_neg hca, indexOf_cons_ite, if_neg hcb]
          exact Nat.succ_lt_succ
            (ih a b ha2 hb2 (Nat.lt_of_succ_lt_succ hlt))
    · rw [List.filter_cons_of_neg hc] at ha hb hlt
      have hca : c ≠ a := by
        intro hca
        subst hca
        exact hc (List.of_mem_filter ha)
      have hcb : c ≠ b := by
        intro hcb
        subst hcb
        exact hc (List.of_mem_filter hb)
      rw [indexOf_cons_ite, if_neg hca, indexOf_cons_ite, if_neg hcb]
      exact Nat.succ_lt_succ (ih a b ha hb hlt)

/-- The dedup output is ordered by first occurrence in the input:
any earlier output element first occurs strictly before any later
one. -/
theorem jsSetInsertionOrder_pairwise_firstSeen :
    ∀ l : List String,
      (jsSetInsertionOrder l).Pairwise
        (fun a b => l.indexOf a < l.indexOf b) := by
  intro l
  induction l using jsSetInsertionOrder.induct with
  | case1 =>
    rw [jsSetInsertionOrder]
    exact List.Pairwise.nil
  | case2 a xs ih =>
    rw [jsSetInsertionOrder_cons]
    refine List.Pairwise.cons ?_ ?_
    · intro b hb
      have hbf : b ∈ xs.filter (fun y => y != a) := by
        rw [jsSetInsertionOrder_mem] at hb
        exact hb
      have hba : a ≠ b := by
        have := (List.mem_filter.mp hbf).2
        simp only [bne_iff_ne, ne_eq] at this
        exact fun h => this h.symm
      rw [indexOf_cons_ite, if_pos rfl, indexOf_cons_ite, if_neg hba]
      exact Nat.succ_pos _
    · refine List.Pairwise.imp_of_mem ?_ ih
      intro u v hu hv huv
      have huf : u ∈ xs.filter (fun y => y != a) := by
        rw [jsSetInsertionOrder_mem] at hu
        exact hu
      have hvf : v ∈ xs.filter (fun y => y != a) := by
        rw [jsSetInsertionOrder_mem] at hv
        exact hv
      have hua : a ≠ u := by
        have := (List.mem_filter.mp huf).2
        simp only [bne_iff_ne, ne_eq] at this
        exact fun h => this h.symm
      have hva : a ≠ v := by
        have := (List.mem_filter.mp hvf).2
        simp only [bne_iff_ne, ne_eq] at this
        exact fun h => this h.symm
      have hxs := indexOf_lt_of_filter_indexOf_lt _ xs u v huf hvf huv
      rw [indexOf_cons_ite, if_neg hua, indexOf_cons_ite, if_neg hva]
      exact Nat.succ_lt_succ hxs

/-- C2: for every page sequence in which an identifier `x` appears at
least once among the raw collected identifiers, the deduplicated list
produced by the collector contains `x` exactly once, and the produced
order is the first-seen order of the raw sequence (each pair of output
identifiers is ordered by first occurrence; the output has no
duplicates). -/
theorem c2_dedup_first_seen (noResultsVisible : Bool)
    (pages : List ResultPage) (raw : List String) (visited : Nat)
    (x : String)
    (hrun : scrapeForEachResult noResultsVisible pages =
      some (raw, visited))
    (hx : 0 < raw.count x) :
    collectedIdentifiers noResultsVisible pages =
      some (jsSetInsertionOrder raw) ∧
    (jsSetInsertionOrder raw).count x = 1 ∧
    (∀ y, y ∈ jsSetInsertionOrder raw ↔ y ∈ raw) ∧
    (jsSetInsertionOrder raw).Nodup ∧
    (jsSetInsertionOrder raw).Pairwise
      (fun a b => raw.indexOf a < raw.indexOf b) := by
  refine ⟨?_, ?_, fun y => jsSetInsertionOrder_mem raw y,
    jsSetInsertionOrder_nodup raw,
    jsSetInsertionOrder_pairwise_firstSeen raw⟩
  · rw [collectedIdentifiers, hrun]
    rfl
  · exact jsSetInsertionOrder_count_eq_one raw x
      (List.count_pos_iff.mp hx)

/-- Witness for C2 on the two-page scenario with raw hits
`[A, B, A, C]` (`A` repeated): the collector output is `[A, B, C]`
and `A` is listed exactly once. -/
theorem c2_dedup_first_seen_witness :
    collectedIdentifiers false
      [⟨[some "A", some "B"], true, none⟩,
       ⟨[some "A", some "C"], false, none⟩] =
      some (jsSetInsertionOrder ["A", "B", "A", "C"]) ∧
    (jsSetInsertionOrder ["A", "B", "A", "C"]).count "A" = 1 :=
  have h := c2_dedup_first_seen false
    [⟨[some "A", some "B"], true, none⟩,
     ⟨[some "A", some "C"], false, none⟩]
    ["A", "B", "A", "C"] 2 "A" (by rfl) (by decide)
  ⟨h.1, h.2.1⟩

/-! ## Claim C6: one-time-code derivation determinism -/

/-- C6: one-time-code derivation is deterministic — equal secret
inputs and equal timestamps always produce the equal result — and for
every secret `S`, deriving from an `otpauth://` URI that embeds `S`
as its `secret` query parameter yields exactly the same result as
deriving from the raw secret `S` directly. -/
theorem c6_totp_deterministic_uri :
    (∀ (s1 s2 : String) (t1 t2 : Nat), s1 = s2 → t1 = t2 →
      generateTOTP s1 t1 = generateTOTP s2 t2) ∧
    (∀ (secret uri : String) (t : Nat),
      startsWithSub uri.data "otpauth://".data = true →
      startsWithSub secret.data "otpauth://".data = false →
      urlSecretParam uri = some secret →
      generateTOTP uri t = generateTOTP secret t) := by
  constructor
  · rintro s1 s2 t1 t2 rfl rfl
    rfl
  · intro secret uri t hu hs hparam
    by_cases hsec : secret = ""
    · subst hsec
      have h1 : generateTOTPCore uri t =
          .error "No secret parameter found in otpauth URL" := by
        unfold generateTOTPCore resolveSecretString
        simp [hu, hparam]
      have h2 : generateTOTPCore "" t =
          .error "Empty or invalid secret provided" := rfl
      unfold generateTOTP
      rw [h1, h2]
    · have hres1 : resolveSecretString uri = .ok secret := by
        unfold resolveSecretString
        simp [hu, hparam, hsec]
      have hres2 : resolveSecretString secret = .ok secret := by
        unfold resolveSecretString
        simp [hs]
      unfold generateTOTP generateTOTPCore
      rw [hres1, hres2]

/-- Witness for C6: the RFC 6238 secret embedded in a provisioning
URI derives the same value as the raw secret. -/
theorem c6_totp_deterministic_uri_witness :
    generateTOTP
      "otpauth://totp/Bitbucket?secret=GEZDGNBVGY3TQOJQGEZDGNBVGY3TQOJQ&issuer=Bitbucket"
      59000 =
    generateTOTP "GEZDGNBVGY3TQOJQGEZDGNBVGY3TQOJQ" 59000 :=
  c6_totp_deterministic_uri.2 "GEZDGNBVGY3TQOJQGEZDGNBVGY3TQOJQ"
    "otpauth://totp/Bitbucket?secret=GEZDGNBVGY3TQOJQGEZDGNBVGY3TQOJQ&issuer=Bitbucket"
    59000 (by decide) (by decide) (by decide)

/-! ## Claim C9: rejection of invalid one-time-code inputs -/

/-- C9 counterexample: an otpauth URI carrying the vault-path marker
`op://` in its label — while its `secret` parameter is a valid base32
secret — still contains the marker, yet `generateTOTP` succeeds
instead of raising: the source checks the marker only on the extracted
secret string, not on the whole input. -/
theorem c9_vault_marker_counterexample :
    strContains
      "otpauth://totp/op://Private/bitbucket?secret=GEZDGNBVGY3TQOJQGEZDGNBVGY3TQOJQ"
      "op://" = true ∧
    exceptIsOk (generateTOTP
      "otpauth://totp/op://Private/bitbucket?secret=GEZDGNBVGY3TQOJQGEZDGNBVGY3TQOJQ"
      59000) = true := by
  exact ⟨by decide, by decide⟩

/-- C9 amended: `generateTOTP` raises whenever the EFFECTIVE secret
string — the raw input, or the extracted `secret` parameter for an
otpauth URI — cleans to the empty string or still contains the
vault-path marker `op://`; in particular every non-URI input that
contains the marker is rejected.  (The amendment restricts the marker
check to the effective secret string: a URI carrying the marker
outside its `secret` parameter is not rejected.) -/
theorem c9_invalid_input_amended :
    (∀ (input : String) (t : Nat) (s : String),
      resolveSecretString input = .ok s → cleanSecretOf s = "" →
      generateTOTP input t =
        .error "Failed to generate TOTP code from secret") ∧
    (∀ (input : String) (t : Nat) (s : String),
      resolveSecretString input = .ok s → strContains s "op://" = true →
      generateTOTP input t =
        .error "Failed to generate TOTP code from secret") ∧
    (∀ (input : String) (t : Nat),
      startsWithSub input.data "otpauth://".data = false →
      strContains input "op://" = true →
      generateTOTP input t =
        .error "Failed to generate TOTP code from secret") := by
  refine ⟨?_, ?_, ?_⟩
  · intro input t s hres hclean
    unfold generateTOTP generateTOTPCore
    rw [hres]
    by_cases hop : strContains s "op://"
    · simp [hop]
    · simp [hop, hclean]
  · intro input t s hres hop
    unfold generateTOTP generateTOTPCore
    rw [hres]
    simp [hop]
  · intro input t hns hop
    have hres : resolveSecretString input = .ok input := by
      unfold resolveSecretString
      simp [hns]
    unfold generateTOTP generateTOTPCore
    rw [hres]
    simp [hop]

/-- Witness for C9 amended: an unresolved 1Password vault path passed
as the secret is rejected with the wrapped error. -/
theorem c9_invalid_input_amended_witness :
    generateTOTP "op://Private/bitbucket/otp" 0 =
      .error "Failed to generate TOTP code from secret" :=
  c9_invalid_input_amended.2.2 "op://Private/bitbucket/otp" 0
    (by decide) (by decide)

/-! ## Claim C5: short-name derivation -/

/-- `split` never returns an empty array. -/
theorem splitChar_ne_nil (sep : Char) (l : List Char) :
    splitChar sep l ≠ [] := by
  cases l with
  | nil => simp [splitChar]
  | cons c cs =>
    simp only [splitChar]
    split
    · simp
    · split <;> simp

/-- The first group of a split is the longest separator-free prefix. -/
theorem headD_splitChar (sep : Char) (l : List Char) :
    (splitChar sep l).headD [] = l.takeWhile (fun c => c != sep) := by
  induction l with
  | nil => simp [splitChar]
  | cons c cs ih =>
    simp only [splitChar]
    cases hs : splitChar sep cs with
    | nil => exact absurd hs (splitChar_ne_nil sep cs)
    | cons g gs =>
      rw [hs] at ih
      by_cases hc : c = sep
      · subst hc
        simp
      · simp only [if_neg hc, List.headD_cons]
        rw [List.takeWhile_cons_of_pos (by simp [hc])]
        simp only [List.headD_cons] at ih
        rw [ih]

/-- A separator-free list splits into the single group it is. -/
theorem splitChar_of_not_mem {sep : Char} {l : List Char} (h : sep ∉ l) :
    splitChar sep l = [l] := by
  induction l with
  | nil => rfl
  | cons c cs ih =>
    have hcs : sep ∉ cs := fun hm => h (List.mem_cons_of_mem _ hm)
    have hc : ¬ c = sep := fun he => h (he ▸ List.mem_cons_self c cs)
    simp only [splitChar, ih hcs]
    simp [hc]

/-- One unfolding step of `splitChar` on a cons, with the recursive
call already rewritten. -/
theorem splitChar_cons_eq (sep c : Char) (cs g : List Char)
    (gs : List (List Char)) (hs : splitChar sep cs = g :: gs) :
    splitChar sep (c :: cs) =
      if c = sep then [] :: g :: gs else (c :: g) :: gs := by
  rw [splitChar, hs]

/-- Conversely, a split with a single group means the separator does
not occur and the group is the whole list. -/
theorem splitChar_eq_single {sep : Char} :
    ∀ {l g : List Char}, splitChar sep l = [g] → g = l ∧ sep ∉ l := by
  intro l
  induction l with
  | nil =>
    intro g h
    simp only [splitChar, List.cons.injEq] at h
    exact ⟨h.1.symm, by simp⟩
  | cons c cs ih =>
    intro g h
    cases hs : splitChar sep cs with
    | nil => exact absurd hs (splitChar_ne_nil sep cs)
    | cons g2 gs =>
      rw [splitChar_cons_eq sep c cs g2 gs hs] at h
      by_cases hc : c = sep
      · rw [if_pos hc] at h
        cases h
      · rw [if_neg hc] at h
        obtain ⟨hg, hgs⟩ : c :: g2 = g ∧ gs = [] := by
          cases h
          exact ⟨rfl, rfl⟩
        subst hgs
        obtain ⟨hg2, hnm⟩ := ih hs
        subst hg2
        refine ⟨hg.symm, ?_⟩
        intro hmem
        rcases List.mem_cons.mp hmem with hh | hh
        · exact hc hh.symm
        · exact hnm hh

/-- Appending one failing element does not change `takeWhile`. -/
theorem takeWhile_append_one_neg {α : Type} (p : α → Bool) (a : α)
    (xs : List α) (h : p a = false) :
    (xs ++ [a]).takeWhile p = xs.takeWhile p := by
  induction xs with
  | nil => simp [List.takeWhile_cons, h]
  | cons x t ih =>
    by_cases hx : p x = true
    · rw [List.cons_append, List.takeWhile_cons_of_pos hx,
        List.takeWhile_cons_of_pos hx, ih]
    · rw [List.cons_append,
        List.takeWhile_cons_of_neg (by simp [hx]),
        List.takeWhile_cons_of_neg (by simp [hx])]

/-- `takeWhile` already stops inside `xs`, so appending anything after
`xs` does not change it. -/
theorem takeWhile_append_stop {α : Type} (p : α → Bool) :
    ∀ (xs ys : List α), (∃ x ∈ xs, p x = false) →
      (xs ++ ys).takeWhile p = xs.takeWhile p := by
  intro xs
  induction xs with
  | nil =>
    rintro ys ⟨x, hx, _⟩
    cases hx
  | cons a t ih =>
    rintro ys ⟨x, hx, hpx⟩
    by_cases hpa : p a = true
    · rw [List.cons_append, List.takeWhile_cons_of_pos hpa,
        List.takeWhile_cons_of_pos hpa]
      have hxt : x ∈ t := by
        rcases List.mem_cons.mp hx with hh | hh
        · subst hh
          rw [hpa] at hpx
          cases hpx
        · exact hh
      rw [ih ys ⟨x, hxt, hpx⟩]
    · rw [List.cons_append,
        List.takeWhile_cons_of_neg (by simp [hpa]),
        List.takeWhile_cons_of_neg (by simp [hpa])]

/-- The last element of a non-empty list does not depend on the
`getLastD` fallback. -/
theorem getLastD_cons_irrel {α : Type} (a b x : α) (l : List α) :
    (x :: l).getLastD a = (x :: l).getLastD b := by
  rw [List.getLastD_eq_getLast?, List.getLastD_eq_getLast?]
  cases h : (x :: l).getLast? with
  | none =>
    rw [List.getLast?_eq_none_iff] at h
    cases h
  | some v => rfl

/-- The last group of a split is the longest separator-free suffix:
`pop` after a split on `sep` yields the part after the last `sep`. -/
theorem getLastD_splitChar (sep : Char) (l : List Char) :
    (splitChar sep l).getLastD [] =
      (l.reverse.takeWhile (fun c => c != sep)).reverse := by
  induction l with
  | nil => simp [splitChar]
  | cons c cs ih =>
    rw [List.reverse_cons]
    cases hs : splitChar sep cs with
    | nil => exact absurd hs (splitChar_ne_nil sep cs)
    | cons g gs =>
      rw [hs] at ih
      by_cases hc : c = sep
      · rw [splitChar_cons_eq sep c cs g gs hs, if_pos hc]
        rw [List.getLastD_cons]
        rw [takeWhile_append_one_neg _ _ _ (by simp [hc])]
        exact ih
      · cases gs with
        | nil =>
          obtain ⟨hg, hnm⟩ := splitChar_eq_single hs
          subst hg
          rw [splitChar_cons_eq sep c g g [] hs, if_neg hc]
          have hall : ∀ x ∈ g.reverse, (fun c => c != sep) x = true := by
            intro x hx
            have hxcs : x ∈ g := List.mem_reverse.mp hx
            have hne : x ≠ sep := fun he => hnm (he ▸ hxcs)
            simp [hne]
          rw [List.takeWhile_append_of_pos hall]
          rw [List.takeWhile_cons_of_pos (by simp [hc])]
          simp [List.getLastD_cons]
        | cons g2 gs2 =>
          have hmem : sep ∈ cs := by
            by_contra hnm
            rw [splitChar_of_not_mem hnm] at hs
            cases hs
          have hstop : ∃ x ∈ cs.reverse, (fun c => c != sep) x = false :=
            ⟨sep, List.mem_reverse.mpr hmem, by simp⟩
          rw [splitChar_cons_eq sep c cs g (g2 :: gs2) hs, if_neg hc]
          rw [takeWhile_append_stop _ _ _ hstop]
          rw [List.getLastD_cons, getLastD_cons_irrel (c :: g) g g2 gs2]
          rw [List.getLastD_cons] at ih
          exact ih

/-- The character-level short name computed by the source coincides
with the final path segment truncated at its first dot. -/
theorem repoNameChars_eq_amended (addr : List Char) :
    repoNameChars addr = amendedShortNameChars addr := by
  unfold repoNameChars amendedShortNameChars jsPop jsHead
  rw [getLastD_splitChar, headD_splitChar]

/-- C5 counterexample: on the transport address
`https://bitbucket.org/team/my.repo.git` the code derives the short
name `my` (everything from the FIRST dot of the final segment is
stripped), while the trailing-extension stripping of the claim yields
`my.repo`; the two disagree, so the claim as stated is false. -/
theorem c5_short_name_counterexample :
    repoName "https://bitbucket.org/team/my.repo.git" = "my" ∧
    claimShortName "https://bitbucket.org/team/my.repo.git" = "my.repo" ∧
    ("my" : String) ≠ "my.repo" := by
  refine ⟨by decide, by decide, by decide⟩

/-- C5 amended: for every transport address, the derived short name
used by the orchestrator (for both the destination-existence check and
the clone target directory) equals the final path segment of the
address truncated at its FIRST dot — everything from the first dot on
is stripped, not merely a trailing extension-like suffix. -/
theorem c5_short_name_amended (addr : String) :
    repoName addr = amendedShortName addr := by
  unfold repoName amendedShortName
  rw [repoNameChars_eq_amended]

end BitbucketClone
